import Mathlib

/-
Verification of the field-merging and fixed-point formula-evaluation core of
the rule-table-render repository.

The embedding mirrors, line by line:
  * ScenarioBuilder._merge_fields   (render_html/render.py, lines 42-57)
  * ScenarioBuilder._compute_values (render_html/render.py, lines 60-81)
  * TemplateRenderer._compute_values (render_json/render_json_example.py,
    lines 57-81)

Modelling decisions, each noted again at the definition it concerns:
  * Python dicts are insertion-ordered association lists with unique keys
    (ctxInsert replaces in place, ctxUpdate is dict.update).
  * Python values flowing through the evaluator are modelled by the tagged
    union Val (None, a number, a string).  Numbers are exact integers: every
    numeric value the claims exercise is integral, and Python float semantics
    are out of scope of a shallow embedding.
  * Formulas are a small expression AST (literals, variable references, and
    the four arithmetic operators) evaluated against a symbol table, which is
    how asteval consumes the formula strings of the configuration files.
  * The asteval Interpreter is modelled faithfully to its default
    configuration, which the source uses: evaluation errors (an undefined
    name, a division by zero, a type error) are recorded internally and the
    call returns None; no exception escapes to the caller.  evalFormula
    returns Option.none exactly when asteval would record such an error, and
    astevalRun is the value the caller of engine(...) actually receives.
-/

/-- Python value as it flows through the evaluation context: None, a number
(exact integer, see the header note), or a string. -/
inductive Val where
  | none : Val
  | num : Int → Val
  | str : String → Val
deriving DecidableEq, Repr

/-- Evaluation context / symbol table: an insertion-ordered association list
modelling a Python dict with unique keys. -/
abbrev Ctx := List (String × Val)

/-- Lookup modelling `k in d` / `d[k]`: first (unique) matching key. -/
def ctxFind : Ctx → String → Option Val
  | [], _ => Option.none
  | (k, v) :: rest, k2 => if k = k2 then Option.some v else ctxFind rest k2

/-- Python `d.get(k)`: None when the key is absent. -/
def ctxGet (c : Ctx) (k : String) : Val := (ctxFind c k).getD Val.none

/-- Python `k in d`. -/
def ctxMem (c : Ctx) (k : String) : Bool := (ctxFind c k).isSome

/-- Python `d[k] = v`: replace in place when the key exists, else append. -/
def ctxInsert : Ctx → String → Val → Ctx
  | [], k, v => [(k, v)]
  | (k1, v1) :: rest, k, v =>
    if k1 = k then (k1, v) :: rest else (k1, v1) :: ctxInsert rest k v

/-- Python `base.update(upd)`. -/
def ctxUpdate (base upd : Ctx) : Ctx :=
  upd.foldl (fun b kv => ctxInsert b kv.1 kv.2) base

/-- Formula expression AST: the fragment of Python expressions the
configuration formulas use, as consumed by asteval.  Variables are field
ids resolved against the interpreter symbol table. -/
inductive Formula where
  | lit : Val → Formula
  | var : String → Formula
  | add : Formula → Formula → Formula
  | sub : Formula → Formula → Formula
  | mul : Formula → Formula → Formula
  | div : Formula → Formula → Formula
deriving DecidableEq, Repr

/-- Core expression evaluation against a symbol table.  Option.none is an
evaluation error: an undefined variable (NameError), an arithmetic operand
that is not a number (TypeError, e.g. None + 1), or a division by zero
(ZeroDivisionError). -/
def evalFormula (sym : Ctx) : Formula → Option Val
  | Formula.lit v => Option.some v
  | Formula.var x => ctxFind sym x
  | Formula.add a b =>
    match evalFormula sym a, evalFormula sym b with
    | Option.some (Val.num x), Option.some (Val.num y) =>
      Option.some (Val.num (x + y))
    | _, _ => Option.none
  | Formula.sub a b =>
    match evalFormula sym a, evalFormula sym b with
    | Option.some (Val.num x), Option.some (Val.num y) =>
      Option.some (Val.num (x - y))
    | _, _ => Option.none
  | Formula.mul a b =>
    match evalFormula sym a, evalFormula sym b with
    | Option.some (Val.num x), Option.some (Val.num y) =>
      Option.some (Val.num (x * y))
    | _, _ => Option.none
  | Formula.div a b =>
    match evalFormula sym a, evalFormula sym b with
    | Option.some (Val.num x), Option.some (Val.num y) =>
      if y = 0 then Option.none else Option.some (Val.num (x / y))
    | _, _ => Option.none

/-- Result of `engine(formula)` for the default-configured asteval
Interpreter the source creates: on an evaluation error the interpreter
records the error internally and returns None; otherwise the computed
value.  No exception propagates to the caller. -/
def astevalRun (sym : Ctx) (e : Formula) : Val :=
  (evalFormula sym e).getD Val.none

/-- Field definition: the JSON object describing one field.  Components
mirror the dict keys the source reads: id (always present), source
(Option.none models an absent source key), default (field.get with
absent collapsing to None), formula (Option.none models an absent formula
key), unit. -/
structure FieldDef where
  id : String
  source : Option String
  default : Val
  formula : Option Formula
  unit : Val
deriving DecidableEq, Repr

/-- Seeding step of ScenarioBuilder._compute_values (render.py lines 64-66):
`if field.get("source") == "user" and field["id"] not in ctx:
   ctx[field["id"]] = field.get("default")`. -/
def seedStep (c : Ctx) (f : FieldDef) : Ctx :=
  if f.source = Option.some "user" ∧ ctxMem c f.id = false then
    ctxInsert c f.id f.default
  else c

/-- Seeding pass over the field list, in list order. -/
def seedFields (fields : List FieldDef) (c : Ctx) : Ctx :=
  fields.foldl seedStep c

/-- Seeding step of TemplateRenderer._compute_values
(render_json_example.py lines 63-65), whose condition is
`field.get("source", "user") == "user"`: an absent source defaults to
"user". -/
def seedStepTR (c : Ctx) (f : FieldDef) : Ctx :=
  if f.source.getD "user" = "user" ∧ ctxMem c f.id = false then
    ctxInsert c f.id f.default
  else c

/-- Seeding pass of TemplateRenderer, in list order. -/
def seedFieldsTR (fields : List FieldDef) (c : Ctx) : Ctx :=
  fields.foldl seedStepTR c

/-- Body of the inner loop of both _compute_values implementations
(render.py lines 72-77): for a field with source "calc" carrying a formula,
evaluate it against the pass-start symbol table, compare with
`ctx.get(field["id"])` (None when the key is absent), and on inequality
write the value and set the changed flag.  Other fields are skipped. -/
def calcStep (sym : Ctx) (acc : Ctx × Bool) (f : FieldDef) : Ctx × Bool :=
  if f.source = Option.some "calc" then
    match f.formula with
    | Option.some e =>
      if ctxGet acc.1 f.id ≠ astevalRun sym e then
        (ctxInsert acc.1 f.id (astevalRun sym e), true)
      else acc
    | Option.none => acc
  else acc

/-- One pass of the inner field loop: `changed = False` then the fold of
calcStep over the field list. -/
def evalPass (fields : List FieldDef) (sym : Ctx) (c : Ctx) : Ctx × Bool :=
  fields.foldl (calcStep sym) (c, false)

/-- One iteration of the outer `for _ in range(8)` loop, acting on the pair
(interpreter symbol table, ctx): `engine.symtable.update(ctx)` followed by
the inner pass.  Returns the new (symtable, ctx) pair and the changed flag. -/
def passStep (fields : List FieldDef) (p : Ctx × Ctx) : (Ctx × Ctx) × Bool :=
  let sym := ctxUpdate p.1 p.2
  let r := evalPass fields sym p.2
  ((sym, r.1), r.2)

/-- The outer loop with its early break (`if not changed: break`),
parameterised by the remaining fuel (8 in the source).  Also counts the
passes actually executed. -/
def evalLoop (fields : List FieldDef) : Nat → (Ctx × Ctx) → (Ctx × Ctx) × Nat
  | 0, p => (p, 0)
  | n + 1, p =>
    let s := passStep fields p
    if s.2 then
      let r := evalLoop fields n s.1
      (r.1, r.2 + 1)
    else (s.1, 1)

/-- Reference iteration without the early break: the (symtable, ctx) pair
after exactly n unconditional passes.  Used to state the pass-count
properties of evalLoop. -/
def iterN (fields : List FieldDef) : Nat → (Ctx × Ctx) → Ctx × Ctx
  | 0, p => p
  | n + 1, p => iterN fields n (passStep fields p).1

/-- ScenarioBuilder._compute_values (render.py lines 60-81): copy the inputs
dict, seed user defaults, then run up to 8 passes with a fresh interpreter
(empty symbol table).  Returns the final (symtable, ctx) pair and the
number of passes executed. -/
def computeValuesFull (fields : List FieldDef) (inputs : Ctx) : (Ctx × Ctx) × Nat :=
  evalLoop fields 8 ([], seedFields fields inputs)

/-- The context ScenarioBuilder._compute_values returns. -/
def computeValues (fields : List FieldDef) (inputs : Ctx) : Ctx :=
  (computeValuesFull fields inputs).1.2

/-- Number of passes the outer loop of ScenarioBuilder._compute_values
executes. -/
def passCount (fields : List FieldDef) (inputs : Ctx) : Nat :=
  (computeValuesFull fields inputs).2

/-- TemplateRenderer._compute_values (render_json_example.py lines 57-81):
identical to the ScenarioBuilder evaluator except for the seeding
condition; `ctx = dict(self.overrides)` plays the role of the inputs. -/
def computeValuesTRFull (fields : List FieldDef) (inputs : Ctx) : (Ctx × Ctx) × Nat :=
  evalLoop fields 8 ([], seedFieldsTR fields inputs)

/-- The context TemplateRenderer._compute_values returns. -/
def computeValuesTR (fields : List FieldDef) (inputs : Ctx) : Ctx :=
  (computeValuesTRFull fields inputs).1.2

/-- Per-field override of a scenario's overrides map: a partial dict with
optional "unit" and "default" entries.  Option.some u means the key is
present (possibly with value None); Option.none means the key is absent. -/
structure Override where
  unit : Option Val
  default : Option Val
deriving DecidableEq, Repr

/-- Scenario configuration, restricted to the keys _merge_fields reads:
use_fields, overrides, fields.  Absent keys are modelled by empty lists. -/
structure ScenarioCfg where
  use_fields : List String
  overrides : List (String × Override)
  fields : List FieldDef
deriving DecidableEq, Repr

/-- Globals catalogue: an object with a fields list. -/
structure GlobalsCfg where
  fields : List FieldDef
deriving DecidableEq, Repr

/-- Lookup in `gmap = {field["id"]: field for field in globals_cfg["fields"]}`:
a dict comprehension keeps the last field with a given id. -/
def gmapFind (fs : List FieldDef) (fid : String) : Option FieldDef :=
  fs.foldl (fun acc f => if f.id = fid then Option.some f else acc) Option.none

/-- Lookup of `scenario_cfg.get("overrides", {}).get(field_id, {})`: the
override entry for a field id, or the empty override. -/
def findOverride (s : ScenarioCfg) (fid : String) : Override :=
  ((s.overrides.find? (fun p => p.1 = fid)).map Prod.snd).getD
    (Override.mk Option.none Option.none)

/-- Body of the use_fields loop of _merge_fields (render.py lines 48-53):
`base = dict(gmap[field_id])` then for key in ("unit", "default"):
`if key in overrides: base[key] = overrides[key]`, then
`base["source"] = "user"`.  The copy keeps every other component (id,
formula) of the global definition. -/
def applyOverride (base : FieldDef) (ov : Override) : FieldDef :=
  let b1 :=
    match ov.unit with
    | Option.some u => FieldDef.mk base.id base.source base.default base.formula u
    | Option.none => base
  let b2 :=
    match ov.default with
    | Option.some d => FieldDef.mk b1.id b1.source d b1.formula b1.unit
    | Option.none => b1
  FieldDef.mk b2.id (Option.some "user") b2.default b2.formula b2.unit

/-- Error raised by _merge_fields: `gmap[field_id]` raises an uncaught
KeyError when a use_fields id has no matching globals field; the spec names
this condition UnknownFieldError. -/
inductive MergeError where
  | unknownField : String → MergeError
deriving DecidableEq, Repr

/-- The use_fields loop of _merge_fields, processing ids in order and
failing at the first id absent from the globals map. -/
def mergeUse (g : GlobalsCfg) (s : ScenarioCfg) : List String → Except MergeError (List FieldDef)
  | [] => Except.ok []
  | fid :: rest =>
    match gmapFind g.fields fid with
    | Option.none => Except.error (MergeError.unknownField fid)
    | Option.some base =>
      match mergeUse g s rest with
      | Except.error e => Except.error e
      | Except.ok tail => Except.ok (applyOverride base (findOverride s fid) :: tail)

/-- ScenarioBuilder._merge_fields (render.py lines 42-57): the resolved
use_fields list followed by the scenario-local fields appended unmodified
(`merged.extend(scenario_cfg.get("fields", []))`). -/
def mergeFields (g : GlobalsCfg) (s : ScenarioCfg) : Except MergeError (List FieldDef) :=
  match mergeUse g s s.use_fields with
  | Except.error e => Except.error e
  | Except.ok ms => Except.ok (ms ++ s.fields)

/-- Resolution of a single use_fields id, as _merge_fields performs it. -/
def resolveUse (g : GlobalsCfg) (s : ScenarioCfg) (fid : String) : Option FieldDef :=
  (gmapFind g.fields fid).map (fun base => applyOverride base (findOverride s fid))

/-! Basic lemmas about the dict operations. -/

theorem ctxFind_insert (c : Ctx) (k k2 : String) (v : Val) :
    ctxFind (ctxInsert c k v) k2 =
      if k = k2 then Option.some v else ctxFind c k2 := by
  induction c with
  | nil => simp [ctxInsert, ctxFind]
  | cons kv rest ih =>
    obtain ⟨k1, v1⟩ := kv
    by_cases h1 : k1 = k
    · subst h1
      by_cases h2 : k1 = k2 <;> simp [ctxInsert, ctxFind, h2]
    · by_cases h2 : k1 = k2
      · subst h2
        have hk : ¬ k = k1 := fun h => h1 h.symm
        simp [ctxInsert, ctxFind, h1, hk]
      · simp [ctxInsert, ctxFind, h1, h2, ih]

theorem ctxMem_insert (c : Ctx) (k k2 : String) (v : Val) :
    ctxMem (ctxInsert c k v) k2 = if k = k2 then true else ctxMem c k2 := by
  by_cases h : k = k2 <;> simp [ctxMem, ctxFind_insert, h]

/-- Characterization of the seeding pass: an id already in the context keeps
its value; an absent id receives the default of the first user field with
that id, when one exists, and stays absent otherwise. -/
theorem seedFields_find (fields : List FieldDef) (c : Ctx) (id : String) :
    ctxFind (seedFields fields c) id =
      if ctxMem c id then ctxFind c id
      else Option.map FieldDef.default
        (fields.find? (fun f => decide (f.source = Option.some "user" ∧ f.id = id))) := by
  induction fields generalizing c with
  | nil =>
    cases h : ctxMem c id with
    | true => simp [seedFields, h]
    | false =>
      have : ctxFind c id = Option.none := by
        cases hf : ctxFind c id with
        | none => rfl
        | some v => simp [ctxMem, hf] at h
      simp [seedFields, h, this]
  | cons f rest ih =>
    have step : seedFields (f :: rest) c = seedFields rest (seedStep c f) := by
      simp [seedFields]
    rw [step, ih]
    by_cases hu : f.source = Option.some "user"
    · by_cases hm : ctxMem c f.id = true
      · have hseed : seedStep c f = c := by simp [seedStep, hm]
        rw [hseed]
        by_cases hid : f.id = id
        · subst hid
          have hp : (decide (f.source = Option.some "user" ∧ f.id = f.id)) = true := by
            simp [hu]
          have hfind :
              List.find? (fun f1 => decide (f1.source = Option.some "user" ∧ f1.id = f.id))
                (f :: rest) = Option.some f :=
            List.find?_cons_of_pos rest hp
          rw [hfind]
          simp [hm]
        · have hp : ¬ ((decide (f.source = Option.some "user" ∧ f.id = id)) = true) := by
            simp [hid]
          have hfind :
              List.find? (fun f1 => decide (f1.source = Option.some "user" ∧ f1.id = id))
                (f :: rest) =
              List.find? (fun f1 => decide (f1.source = Option.some "user" ∧ f1.id = id)) rest :=
            List.find?_cons_of_neg rest hp
          rw [hfind]
      · have hm2 : ctxMem c f.id = false := by
          cases h : ctxMem c f.id with
          | true => exact absurd h hm
          | false => rfl
        have hseed : seedStep c f = ctxInsert c f.id f.default := by
          simp [seedStep, hu, hm2]
        rw [hseed]
        by_cases hid : f.id = id
        · subst hid
          have hp : (decide (f.source = Option.some "user" ∧ f.id = f.id)) = true := by
            simp [hu]
          have hfind :
              List.find? (fun f1 => decide (f1.source = Option.some "user" ∧ f1.id = f.id))
                (f :: rest) = Option.some f :=
            List.find?_cons_of_pos rest hp
          rw [hfind]
          simp [ctxMem_insert, ctxFind_insert, hm2]
        · have hp : ¬ ((decide (f.source = Option.some "user" ∧ f.id = id)) = true) := by
            simp [hid]
          have hfind :
              List.find? (fun f1 => decide (f1.source = Option.some "user" ∧ f1.id = id))
                (f :: rest) =
              List.find? (fun f1 => decide (f1.source = Option.some "user" ∧ f1.id = id)) rest :=
            List.find?_cons_of_neg rest hp
          rw [hfind]
          simp [ctxMem_insert, ctxFind_insert, hid]
    · have hseed : seedStep c f = c := by simp [seedStep, hu]
      have hp : ¬ ((decide (f.source = Option.some "user" ∧ f.id = id)) = true) := by
        simp [hu]
      have hfind :
          List.find? (fun f1 => decide (f1.source = Option.some "user" ∧ f1.id = id))
            (f :: rest) =
          List.find? (fun f1 => decide (f1.source = Option.some "user" ∧ f1.id = id)) rest :=
        List.find?_cons_of_neg rest hp
      rw [hseed, hfind]

/-- C9: externally supplied inputs have highest priority over defaults.  For
every field list and context, an id already present in the context keeps its
value through the seeding pass (a default never replaces it), and a default
is written only for an id that is absent and belongs to a user field (the
first such field in list order); any other absent id stays absent. -/
theorem seeding_inputs_priority (fields : List FieldDef) (inputs : Ctx) (id : String) :
    ctxFind (seedFields fields inputs) id =
      if ctxMem inputs id then ctxFind inputs id
      else Option.map FieldDef.default
        (fields.find? (fun f => decide (f.source = Option.some "user" ∧ f.id = id))) :=
  seedFields_find fields inputs id

/-! Lemmas about the calc pass: the changed flag is monotone along the fold,
and a pass reporting no change wrote nothing. -/

theorem calcStep_cases (sym : Ctx) (acc : Ctx × Bool) (f : FieldDef) :
    calcStep sym acc f = acc ∨
    (∃ e, f.source = Option.some "calc" ∧ f.formula = Option.some e ∧
      ctxGet acc.1 f.id ≠ astevalRun sym e ∧
      calcStep sym acc f = (ctxInsert acc.1 f.id (astevalRun sym e), true)) := by
  by_cases h1 : f.source = Option.some "calc"
  · cases hf : f.formula with
    | none => left; simp [calcStep, h1, hf]
    | some e =>
      by_cases h2 : ctxGet acc.1 f.id ≠ astevalRun sym e
      · right; exact ⟨e, h1, rfl, h2, by simp [calcStep, h1, hf, h2]⟩
      · left; simp [calcStep, h1, hf, h2]
  · left; simp [calcStep, h1]

theorem calcStep_snd_mono (sym : Ctx) (acc : Ctx × Bool) (f : FieldDef)
    (h : acc.2 = true) : (calcStep sym acc f).2 = true := by
  rcases calcStep_cases sym acc f with hc | ⟨e, _, _, _, hc⟩
  · rw [hc]; exact h
  · rw [hc]

theorem calcStep_of_snd_false (sym : Ctx) (acc : Ctx × Bool) (f : FieldDef)
    (h : (calcStep sym acc f).2 = false) : calcStep sym acc f = acc := by
  rcases calcStep_cases sym acc f with hc | ⟨e, _, _, _, hc⟩
  · exact hc
  · rw [hc] at h
    simp at h

theorem foldl_calcStep_snd_mono (sym : Ctx) (fields : List FieldDef) :
    ∀ acc : Ctx × Bool, acc.2 = true →
      (List.foldl (calcStep sym) acc fields).2 = true := by
  induction fields with
  | nil => intro acc h; exact h
  | cons f rest ih =>
    intro acc h
    exact ih (calcStep sym acc f) (calcStep_snd_mono sym acc f h)

theorem foldl_calcStep_of_snd_false (sym : Ctx) (fields : List FieldDef) :
    ∀ acc : Ctx × Bool, (List.foldl (calcStep sym) acc fields).2 = false →
      List.foldl (calcStep sym) acc fields = acc := by
  induction fields with
  | nil => intro acc _; rfl
  | cons f rest ih =>
    intro acc h
    have hstep : (calcStep sym acc f).2 = false := by
      cases hs : (calcStep sym acc f).2 with
      | false => rfl
      | true =>
        have := foldl_calcStep_snd_mono sym rest (calcStep sym acc f) hs
        simp only [List.foldl_cons] at h
        rw [this] at h
        exact absurd h (by simp)
    have heq : calcStep sym acc f = acc := calcStep_of_snd_false sym acc f hstep
    simp only [List.foldl_cons, heq] at h ⊢
    exact ih acc h

/-- A pass that reports no change left the context untouched. -/
theorem evalPass_snd_false (fields : List FieldDef) (sym c : Ctx)
    (h : (evalPass fields sym c).2 = false) : (evalPass fields sym c).1 = c := by
  have := foldl_calcStep_of_snd_false sym fields (c, false) h
  unfold evalPass
  rw [this]

/-- With no calc-with-formula work to do, a pass is a no-op reporting no
change.  The hypothesis covers every field whose source is "calc". -/
theorem evalPass_no_calc (fields : List FieldDef) (sym c : Ctx)
    (h : ∀ f ∈ fields, f.source ≠ Option.some "calc") :
    evalPass fields sym c = (c, false) := by
  unfold evalPass
  induction fields with
  | nil => rfl
  | cons f rest ih =>
    have hf : f.source ≠ Option.some "calc" := h f (List.mem_cons_self f rest)
    have hstep : calcStep sym (c, false) f = (c, false) := by
      unfold calcStep
      simp [hf]
    simp only [List.foldl_cons, hstep]
    exact ih (fun g hg => h g (List.mem_cons_of_mem f hg))

/-- Unfolding of the outer loop when the first pass reports no change: the
loop breaks after that single pass. -/
theorem evalLoop_not_changed (fields : List FieldDef) (n : Nat) (p : Ctx × Ctx)
    (h : (passStep fields p).2 = false) :
    evalLoop fields (n + 1) p = ((passStep fields p).1, 1) := by
  simp [evalLoop, h]

/-- C5: with no calc field in the list, evaluate returns after pass 1 with
the seeded context: each id of the inputs keeps its input value, each
user-field id absent from the inputs receives the (first such) field's
default, and no other id is present. -/
theorem evaluate_no_calc (fields : List FieldDef) (inputs : Ctx)
    (h : ∀ f ∈ fields, f.source ≠ Option.some "calc") :
    passCount fields inputs = 1 ∧
    computeValues fields inputs = seedFields fields inputs ∧
    ∀ id, ctxFind (computeValues fields inputs) id =
      if ctxMem inputs id then ctxFind inputs id
      else Option.map FieldDef.default
        (fields.find? (fun f => decide (f.source = Option.some "user" ∧ f.id = id))) := by
  have hpass :
      (passStep fields ([], seedFields fields inputs)).2 = false := by
    unfold passStep
    simp [evalPass_no_calc fields _ _ h]
  have h8 : (8 : Nat) = 7 + 1 := rfl
  have hloop :
      evalLoop fields 8 ([], seedFields fields inputs) =
        ((passStep fields ([], seedFields fields inputs)).1, 1) := by
    rw [h8]
    exact evalLoop_not_changed fields 7 _ hpass
  have hfst :
      (passStep fields ([], seedFields fields inputs)).1.2 = seedFields fields inputs := by
    unfold passStep
    simp [evalPass_no_calc fields _ _ h]
  constructor
  · unfold passCount computeValuesFull
    rw [hloop]
  constructor
  · unfold computeValues computeValuesFull
    rw [hloop]
    exact hfst
  · intro id
    have hv : computeValues fields inputs = seedFields fields inputs := by
      unfold computeValues computeValuesFull
      rw [hloop]
      exact hfst
    rw [hv]
    exact seedFields_find fields inputs id

/-- Concrete user field for the C5 witness. -/
def c5f : FieldDef := FieldDef.mk "p" (Option.some "user") (Val.num 100) Option.none Val.none

theorem evaluate_no_calc_witness :
    passCount [c5f] [("q", Val.num 3)] = 1 ∧
    computeValues [c5f] [("q", Val.num 3)] = seedFields [c5f] [("q", Val.num 3)] ∧
    ∀ id, ctxFind (computeValues [c5f] [("q", Val.num 3)]) id =
      if ctxMem [("q", Val.num 3)] id then ctxFind [("q", Val.num 3)] id
      else Option.map FieldDef.default
        ([c5f].find? (fun f => decide (f.source = Option.some "user" ∧ f.id = id))) :=
  evaluate_no_calc [c5f] [("q", Val.num 3)]
    (by intro f hf; rw [List.mem_singleton] at hf; subst hf; decide)

/-! The outer loop against its break-free reference iteration. -/

theorem iterN_succ (fields : List FieldDef) (n : Nat) (p : Ctx × Ctx) :
    iterN fields (n + 1) p = iterN fields n (passStep fields p).1 := rfl

/-- Full characterization of the outer loop: it executes between 1 and n
passes, its result is the break-free iteration at the executed pass count,
every pass before the last reported a change, and when it stops below the
fuel bound the final executed pass reported no change. -/
theorem evalLoop_spec (fields : List FieldDef) :
    ∀ (n : Nat) (p : Ctx × Ctx),
      (0 < n → 1 ≤ (evalLoop fields n p).2) ∧
      (evalLoop fields n p).2 ≤ n ∧
      (evalLoop fields n p).1 = iterN fields (evalLoop fields n p).2 p ∧
      (∀ j, j + 1 < (evalLoop fields n p).2 →
        (passStep fields (iterN fields j p)).2 = true) ∧
      ((evalLoop fields n p).2 < n →
        (passStep fields (iterN fields ((evalLoop fields n p).2 - 1) p)).2 = false) := by
  intro n
  induction n with
  | zero =>
    intro p
    refine ⟨by omega, by simp [evalLoop], by simp [evalLoop, iterN], ?_, by omega⟩
    intro j hj
    simp [evalLoop] at hj
  | succ n ih =>
    intro p
    cases hs : (passStep fields p).2 with
    | false =>
      have hloop : evalLoop fields (n + 1) p = ((passStep fields p).1, 1) := by
        simp [evalLoop, hs]
      rw [hloop]
      refine ⟨fun _ => le_refl 1, by omega, by simp [iterN], ?_, ?_⟩
      · intro j hj
        omega
      · intro _
        simpa [iterN] using hs
    | true =>
      have hloop : evalLoop fields (n + 1) p =
          ((evalLoop fields n (passStep fields p).1).1,
           (evalLoop fields n (passStep fields p).1).2 + 1) := by
        simp [evalLoop, hs]
      obtain ⟨ih1, ih2, ih3, ih4, ih5⟩ := ih (passStep fields p).1
      rw [hloop]
      refine ⟨fun _ => by omega, by omega, ?_, ?_, ?_⟩
      · rw [iterN_succ]
        exact ih3
      · intro j hj
        cases j with
        | zero => exact hs
        | succ j2 =>
          rw [iterN_succ]
          exact ih4 j2 (by omega)
      · intro hlt
        have hn : (evalLoop fields n (passStep fields p).1).2 < n := by omega
        have hpos : 0 < n := by omega
        have h1 : 1 ≤ (evalLoop fields n (passStep fields p).1).2 := ih1 hpos
        have hk : (evalLoop fields n (passStep fields p).1).2 + 1 - 1 =
            ((evalLoop fields n (passStep fields p).1).2 - 1) + 1 := by omega
        rw [hk, iterN_succ]
        exact ih5 hn

/-- C6: evaluate always terminates (it is a total function of this
embedding) and its outer loop executes between 1 and 8 passes over the
field list; the returned context is the break-free pass iteration at the
executed pass count; the loop stops early exactly when a pass produces no
change (every non-final executed pass produced a change, and a stop below
the 8-pass budget means the last pass produced none); and when the budget
is exhausted the pass-8 context is returned as is, with no error: the
function has no error outcome. -/
theorem evaluate_pass_budget (fields : List FieldDef) (inputs : Ctx) :
    1 ≤ passCount fields inputs ∧
    passCount fields inputs ≤ 8 ∧
    computeValues fields inputs =
      (iterN fields (passCount fields inputs) ([], seedFields fields inputs)).2 ∧
    (∀ j, j + 1 < passCount fields inputs →
      (passStep fields (iterN fields j ([], seedFields fields inputs))).2 = true) ∧
    (passCount fields inputs < 8 →
      (passStep fields (iterN fields (passCount fields inputs - 1)
        ([], seedFields fields inputs))).2 = false) := by
  obtain ⟨h1, h2, h3, h4, h5⟩ := evalLoop_spec fields 8 ([], seedFields fields inputs)
  exact ⟨h1 (by omega), h2, congrArg Prod.snd h3, h4, h5⟩

/-- Concrete calc field for the C6 witness: converges on pass 2. -/
def c6f : FieldDef :=
  FieldDef.mk "x" (Option.some "calc") Val.none
    (Option.some (Formula.lit (Val.num 5))) Val.none

theorem evaluate_pass_budget_witness :
    1 ≤ passCount [c6f] [] ∧
    (passStep [c6f] (iterN [c6f] 0 ([], seedFields [c6f] []))).2 = true ∧
    (passStep [c6f] (iterN [c6f] 1 ([], seedFields [c6f] []))).2 = false := by
  obtain ⟨h1, _, _, h4, h5⟩ := evaluate_pass_budget [c6f] []
  refine ⟨h1, h4 0 (by decide), ?_⟩
  have := h5 (by decide)
  exact this

/-! Error handling of formula evaluation (claims C1 and C2). -/

/-- Calc field whose formula references the undefined variable y. -/
def c1fUndef : FieldDef :=
  FieldDef.mk "x" (Option.some "calc") Val.none
    (Option.some (Formula.var "y")) Val.none

/-- Calc field whose formula divides by zero. -/
def c1fDiv : FieldDef :=
  FieldDef.mk "z" (Option.some "calc") Val.none
    (Option.some (Formula.div (Formula.lit (Val.num 1)) (Formula.lit (Val.num 0))))
    Val.none

/-- C1 counterexample: with a field list whose two calc formulas reference an
undefined variable and divide by zero respectively, both formula evaluations
are errors, yet evaluate does not fail: it returns a context (here the
empty one) after a single pass.  No UndefinedVariableError or
FormulaEvaluationError reaches the caller. -/
theorem evaluate_error_not_raised_counterexample :
    evalFormula [] (Formula.var "y") = Option.none ∧
    evalFormula []
      (Formula.div (Formula.lit (Val.num 1)) (Formula.lit (Val.num 0))) =
      Option.none ∧
    computeValues [c1fUndef, c1fDiv] [] = [] ∧
    passCount [c1fUndef, c1fDiv] [] = 1 := by decide

/-- C1 amended: a formula whose evaluation errors (undefined variable,
division by zero, bad operand) is caught inside the asteval interpreter,
which returns None as the expression value; the evaluation step then treats
None as the computed value, writing it only when it differs from the
current ctx.get entry.  No error is propagated and the evaluation call
always returns a context. -/
theorem asteval_swallows_errors :
    (∀ (sym : Ctx) (e : Formula),
      evalFormula sym e = Option.none → astevalRun sym e = Val.none) ∧
    (∀ (sym c : Ctx) (ch : Bool) (f : FieldDef) (e : Formula),
      f.source = Option.some "calc" → f.formula = Option.some e →
      evalFormula sym e = Option.none →
      calcStep sym (c, ch) f =
        if ctxGet c f.id ≠ Val.none then (ctxInsert c f.id Val.none, true)
        else (c, ch)) := by
  constructor
  · intro sym e h
    simp [astevalRun, h]
  · intro sym c ch f e h1 h2 h3
    have hrun : astevalRun sym e = Val.none := by simp [astevalRun, h3]
    by_cases hg : ctxGet c f.id = Val.none
    · simp [calcStep, h1, h2, hrun, hg]
    · simp [calcStep, h1, h2, hrun, hg]

theorem asteval_swallows_errors_witness :
    evalFormula [] (Formula.var "y") = Option.none ∧
    calcStep [] ([("x", Val.num 1)], false) c1fUndef =
      (if ctxGet [("x", Val.num 1)] "x" ≠ Val.none
       then (ctxInsert [("x", Val.num 1)] "x" Val.none, true)
       else ([("x", Val.num 1)], false)) :=
  ⟨by decide,
   asteval_swallows_errors.2 [] [("x", Val.num 1)] false c1fUndef
     (Formula.var "y") rfl rfl (by decide)⟩

/-- Calc field whose formula successfully evaluates to the literal None. -/
def c2fNone : FieldDef :=
  FieldDef.mk "x" (Option.some "calc") Val.none
    (Option.some (Formula.lit Val.none)) Val.none

/-- C2 counterexample: a calc field whose id is not in the context and whose
formula successfully produces None is NOT written and does NOT mark the
pass as changed — ctx.get returns None for the missing key, which compares
equal to the computed None.  The pass leaves the context empty and reports
no change, and evaluate stops after pass 1 with the field still absent. -/
theorem convergence_missing_key_counterexample :
    astevalRun [] (Formula.lit Val.none) = Val.none ∧
    evalPass [c2fNone] [] [] = ([], false) ∧
    computeValues [c2fNone] [] = [] ∧
    passCount [c2fNone] [] = 1 := by decide

/-- C2 amended: in the convergence comparison, a calc field whose id is not
yet a key in the context compares through ctx.get, which yields None for
the missing key; so the first evaluation of such a field writes the value
and marks the pass as changed exactly when the computed value is not None,
while a None-producing evaluation writes nothing and leaves the changed
flag as it was. -/
theorem convergence_missing_key (sym c : Ctx) (ch : Bool) (f : FieldDef)
    (e : Formula) (h1 : f.source = Option.some "calc")
    (h2 : f.formula = Option.some e) (h3 : ctxFind c f.id = Option.none) :
    (astevalRun sym e ≠ Val.none →
      calcStep sym (c, ch) f = (ctxInsert c f.id (astevalRun sym e), true)) ∧
    (astevalRun sym e = Val.none → calcStep sym (c, ch) f = (c, ch)) := by
  have hget : ctxGet c f.id = Val.none := by simp [ctxGet, h3]
  constructor
  · intro hne
    have hne2 : Val.none ≠ astevalRun sym e := Ne.symm hne
    simp [calcStep, h1, h2, hget, hne, hne2]
  · intro heq
    simp [calcStep, h1, h2, hget, heq]

/-- Calc field producing the literal 5, for the C2 witness. -/
def c2fFive : FieldDef :=
  FieldDef.mk "x" (Option.some "calc") Val.none
    (Option.some (Formula.lit (Val.num 5))) Val.none

theorem convergence_missing_key_witness :
    calcStep [] ([], false) c2fFive =
      (ctxInsert [] "x" (astevalRun [] (Formula.lit (Val.num 5))), true) :=
  (convergence_missing_key [] [] false c2fFive (Formula.lit (Val.num 5))
    rfl rfl rfl).1 (by decide)

/-! Keys are never removed: membership is monotone along seeding and calc
passes.  Used to show that re-running evaluate on its own output seeds
nothing new. -/

theorem calcStep_mem_mono (sym : Ctx) (acc : Ctx × Bool) (f : FieldDef)
    (k : String) (h : ctxMem acc.1 k = true) :
    ctxMem (calcStep sym acc f).1 k = true := by
  rcases calcStep_cases sym acc f with hc | ⟨e, _, _, _, hc⟩
  · rw [hc]; exact h
  · rw [hc]
    simp [ctxMem_insert, h]

theorem foldl_calcStep_mem_mono (sym : Ctx) (fields : List FieldDef) :
    ∀ (acc : Ctx × Bool) (k : String), ctxMem acc.1 k = true →
      ctxMem (List.foldl (calcStep sym) acc fields).1 k = true := by
  induction fields with
  | nil => intro acc k h; exact h
  | cons f rest ih =>
    intro acc k h
    exact ih (calcStep sym acc f) k (calcStep_mem_mono sym acc f k h)

theorem evalLoop_mem_mono (fields : List FieldDef) :
    ∀ (n : Nat) (p : Ctx × Ctx) (k : String), ctxMem p.2 k = true →
      ctxMem (evalLoop fields n p).1.2 k = true := by
  intro n
  induction n with
  | zero => intro p k h; exact h
  | succ n ih =>
    intro p k h
    have hstep : ctxMem (passStep fields p).1.2 k = true :=
      foldl_calcStep_mem_mono _ fields (p.2, false) k h
    cases hs : (passStep fields p).2 with
    | true =>
      have hloop : evalLoop fields (n + 1) p =
          ((evalLoop fields n (passStep fields p).1).1,
           (evalLoop fields n (passStep fields p).1).2 + 1) := by
        simp [evalLoop, hs]
      rw [hloop]
      exact ih (passStep fields p).1 k hstep
    | false =>
      have hloop : evalLoop fields (n + 1) p = ((passStep fields p).1, 1) := by
        simp [evalLoop, hs]
      rw [hloop]
      exact hstep

theorem seedStep_mem_mono (c : Ctx) (f : FieldDef) (k : String)
    (h : ctxMem c k = true) : ctxMem (seedStep c f) k = true := by
  unfold seedStep
  split
  · simp [ctxMem_insert, h]
  · exact h

theorem seedStep_user_mem (c : Ctx) (f : FieldDef)
    (hu : f.source = Option.some "user") : ctxMem (seedStep c f) f.id = true := by
  unfold seedStep
  split
  · simp [ctxMem_insert]
  · rename_i hcond
    rw [not_and] at hcond
    have := hcond hu
    cases hm : ctxMem c f.id with
    | true => rfl
    | false => exact absurd hm this

theorem seedFields_mem_mono (fields : List FieldDef) :
    ∀ (c : Ctx) (k : String), ctxMem c k = true →
      ctxMem (seedFields fields c) k = true := by
  induction fields with
  | nil => intro c k h; exact h
  | cons f rest ih =>
    intro c k h
    exact ih (seedStep c f) k (seedStep_mem_mono c f k h)

theorem seedFields_user_mem (fields : List FieldDef) :
    ∀ (c : Ctx) (f : FieldDef), f ∈ fields → f.source = Option.some "user" →
      ctxMem (seedFields fields c) f.id = true := by
  induction fields with
  | nil => intro c f hf; exact absurd hf (List.not_mem_nil f)
  | cons g rest ih =>
    intro c f hf hu
    rcases List.mem_cons.mp hf with heq | hmem
    · subst heq
      have step : seedFields (f :: rest) c = seedFields rest (seedStep c f) := by
        simp [seedFields]
      rw [step]
      exact seedFields_mem_mono rest (seedStep c f) f.id (seedStep_user_mem c f hu)
    · have step : seedFields (g :: rest) c = seedFields rest (seedStep c g) := by
        simp [seedFields]
      rw [step]
      exact ih (seedStep c g) f hmem hu

/-- Every user field id is a key of the returned context. -/
theorem computeValues_user_mem (fields : List FieldDef) (inputs : Ctx)
    (f : FieldDef) (hf : f ∈ fields) (hu : f.source = Option.some "user") :
    ctxMem (computeValues fields inputs) f.id = true :=
  evalLoop_mem_mono fields 8 ([], seedFields fields inputs) f.id
    (seedFields_user_mem fields inputs f hf hu)

/-- Seeding is a no-op on a context that already contains every user field
id. -/
theorem seedFields_noop (fields : List FieldDef) :
    ∀ c : Ctx, (∀ f ∈ fields, f.source = Option.some "user" →
      ctxMem c f.id = true) → seedFields fields c = c := by
  induction fields with
  | nil => intro c _; rfl
  | cons g rest ih =>
    intro c h
    have hstep : seedStep c g = c := by
      unfold seedStep
      split
      · rename_i hcond
        have := h g (List.mem_cons_self g rest) hcond.1
        rw [hcond.2] at this
        exact absurd this (by simp)
      · rfl
    have step : seedFields (g :: rest) c = seedFields rest (seedStep c g) := by
      simp [seedFields]
    rw [step, hstep]
    exact ih c (fun f hf hu => h f (List.mem_cons_of_mem g hf) hu)

/-- C7 amended: evaluate is idempotent on every output that is a fixed
point, i.e. whenever re-evaluating all calc fields against the returned
context produces no change (which the spec calls reaching a fixed point):
feeding the output back as the inputs yields that same context.  Without
that proviso idempotence fails — see the non-convergence counterexample. -/
theorem evaluate_idempotent_on_fixed_point (fields : List FieldDef)
    (inputs : Ctx)
    (hfix : (passStep fields ([], computeValues fields inputs)).2 = false) :
    computeValues fields (computeValues fields inputs) =
      computeValues fields inputs := by
  have hseed : seedFields fields (computeValues fields inputs) =
      computeValues fields inputs :=
    seedFields_noop fields _
      (fun f hf hu => computeValues_user_mem fields inputs f hf hu)
  have h8 : (8 : Nat) = 7 + 1 := rfl
  show (evalLoop fields 8
      ([], seedFields fields (computeValues fields inputs))).1.2 =
    computeValues fields inputs
  rw [hseed, h8, evalLoop_not_changed fields 7 _ hfix]
  exact evalPass_snd_false fields _ _ hfix

/-- User field a with default 0, for the C7 counterexample. -/
def c7User : FieldDef :=
  FieldDef.mk "a" (Option.some "user") (Val.num 0) Option.none Val.none

/-- Calc field a with the self-referential formula a + 1, for the C7
counterexample: its value grows by one every pass and never converges. -/
def c7Calc : FieldDef :=
  FieldDef.mk "a" (Option.some "calc") Val.none
    (Option.some (Formula.add (Formula.var "a") (Formula.lit (Val.num 1))))
    Val.none

/-- C7 counterexample: with a non-convergent configuration the 8-pass
budget is exhausted (a ends at 8), and re-running evaluate on the returned
context runs 8 further passes (a ends at 16): the output is not a fixed
point and idempotence fails as an unconditional property. -/
theorem evaluate_idempotent_counterexample :
    computeValues [c7User, c7Calc] [] = [("a", Val.num 8)] ∧
    computeValues [c7User, c7Calc] (computeValues [c7User, c7Calc] []) =
      [("a", Val.num 16)] ∧
    computeValues [c7User, c7Calc] (computeValues [c7User, c7Calc] []) ≠
      computeValues [c7User, c7Calc] [] := by decide

/-- Calc field x = 5, for the C7 witness: converges on pass 2. -/
def c7Five : FieldDef :=
  FieldDef.mk "x" (Option.some "calc") Val.none
    (Option.some (Formula.lit (Val.num 5))) Val.none

theorem evaluate_idempotent_on_fixed_point_witness :
    computeValues [c7Five] (computeValues [c7Five] []) =
      computeValues [c7Five] [] :=
  evaluate_idempotent_on_fixed_point [c7Five] [] (by decide)

/-! Merge claims (C3 and C4). -/

/-- Resolution of a whole use_fields list: each id through resolveUse, in
order, None as soon as one id is missing from the globals map. -/
def resolveAll (g : GlobalsCfg) (s : ScenarioCfg) : List String → Option (List FieldDef)
  | [] => Option.some []
  | fid :: rest =>
    match resolveUse g s fid, resolveAll g s rest with
    | Option.some f, Option.some fs => Option.some (f :: fs)
    | _, _ => Option.none

/-- A successful run of the use_fields loop resolves each id, in order,
through resolveUse. -/
theorem mergeUse_ok (g : GlobalsCfg) (s : ScenarioCfg) :
    ∀ (l : List String) (pre : List FieldDef),
      mergeUse g s l = Except.ok pre →
      resolveAll g s l = Option.some pre := by
  intro l
  induction l with
  | nil =>
    intro pre h
    unfold mergeUse at h
    cases h
    rfl
  | cons fid rest ih =>
    intro pre h
    unfold mergeUse at h
    cases hg : gmapFind g.fields fid with
    | none => rw [hg] at h; cases h
    | some base =>
      rw [hg] at h
      cases hrest : mergeUse g s rest with
      | error e => rw [hrest] at h; cases h
      | ok tail =>
        rw [hrest] at h
        cases h
        have htail := ih tail hrest
        have hres : resolveUse g s fid =
            Option.some (applyOverride base (findOverride s fid)) := by
          unfold resolveUse
          rw [hg]
          rfl
        simp [resolveAll, hres, htail]

/-- Globals catalogue of the claimed override example:
{"id": "rate", "unit": "%", "default": 5}. -/
def c3g : GlobalsCfg :=
  GlobalsCfg.mk [FieldDef.mk "rate" Option.none (Val.num 5) Option.none (Val.str "%")]

/-- Scenario of the claimed override example:
{"use_fields": ["rate"], "overrides": {"rate": {"default": 7}}}. -/
def c3s : ScenarioCfg :=
  ScenarioCfg.mk ["rate"]
    [("rate", Override.mk Option.none (Option.some (Val.num 7)))] []

/-- C3: a successful merge is the use_fields ids resolved in order (each a
copy of the matching global field—id and formula preserved—with unit and
default replaced by the override entries when present and source forced to
"user") followed by the scenario-local fields appended unmodified, with no
deduplication; and on the claimed example the merged field has unit "%",
default 7 and source "user". -/
theorem merge_override_semantics :
    (∀ (g : GlobalsCfg) (s : ScenarioCfg) (merged : List FieldDef),
      mergeFields g s = Except.ok merged →
      ∃ pre, resolveAll g s s.use_fields = Option.some pre ∧
        merged = pre ++ s.fields) ∧
    (∀ (g : GlobalsCfg) (s : ScenarioCfg) (fid : String) (base : FieldDef),
      gmapFind g.fields fid = Option.some base →
      resolveUse g s fid =
        Option.some (applyOverride base (findOverride s fid))) ∧
    (∀ (base : FieldDef) (ov : Override),
      (applyOverride base ov).id = base.id ∧
      (applyOverride base ov).formula = base.formula ∧
      (applyOverride base ov).unit = ov.unit.getD base.unit ∧
      (applyOverride base ov).default = ov.default.getD base.default ∧
      (applyOverride base ov).source = Option.some "user") ∧
    mergeFields c3g c3s =
      Except.ok
        [FieldDef.mk "rate" (Option.some "user") (Val.num 7) Option.none
          (Val.str "%")] := by
  refine ⟨?_, ?_, ?_, rfl⟩
  · intro g s merged h
    unfold mergeFields at h
    cases hu : mergeUse g s s.use_fields with
    | error e => rw [hu] at h; cases h
    | ok pre =>
      rw [hu] at h
      cases h
      exact ⟨pre, mergeUse_ok g s s.use_fields pre hu, rfl⟩
  · intro g s fid base h
    unfold resolveUse
    rw [h]
    rfl
  · intro base ov
    cases hu : ov.unit with
    | none => cases hd : ov.default with
      | none => simp [applyOverride, hu, hd]
      | some d => simp [applyOverride, hu, hd]
    | some u => cases hd : ov.default with
      | none => simp [applyOverride, hu, hd]
      | some d => simp [applyOverride, hu, hd]

theorem merge_override_semantics_witness :
    ∃ pre, resolveAll c3g c3s c3s.use_fields = Option.some pre ∧
      [FieldDef.mk "rate" (Option.some "user") (Val.num 7) Option.none
        (Val.str "%")] = pre ++ c3s.fields :=
  merge_override_semantics.1 c3g c3s
    [FieldDef.mk "rate" (Option.some "user") (Val.num 7) Option.none
      (Val.str "%")] rfl

/-- When some use_fields id is missing from the globals map, the loop
reaches the first such id and fails there. -/
theorem mergeUse_first_missing (g : GlobalsCfg) (s : ScenarioCfg) :
    ∀ (l : List String) (fid : String),
      l.find? (fun x => (gmapFind g.fields x).isNone) = Option.some fid →
      mergeUse g s l = Except.error (MergeError.unknownField fid) := by
  intro l
  induction l with
  | nil => intro fid h; cases h
  | cons x rest ih =>
    intro fid h
    cases hg : gmapFind g.fields x with
    | none =>
      have hp : ((gmapFind g.fields x).isNone : Bool) = true := by
        rw [hg]; rfl
      have hfind :
          List.find? (fun y => (gmapFind g.fields y).isNone) (x :: rest) =
            Option.some x :=
        List.find?_cons_of_pos rest hp
      rw [hfind] at h
      cases h
      unfold mergeUse
      rw [hg]
    | some base =>
      have hp : ¬ (((gmapFind g.fields x).isNone : Bool) = true) := by
        rw [hg]; simp
      have hfind :
          List.find? (fun y => (gmapFind g.fields y).isNone) (x :: rest) =
            List.find? (fun y => (gmapFind g.fields y).isNone) rest :=
        List.find?_cons_of_neg rest hp
      rw [hfind] at h
      have := ih fid h
      unfold mergeUse
      rw [hg, this]

/-- C4: a use_fields entry with no matching globals field makes merge fail
fast: the result is the unknown-field error for the first such id (the
uncaught KeyError of `gmap[field_id]`, which the spec names
UnknownFieldError); no partial merged list is returned and the entry is
not skipped. -/
theorem merge_unknown_field_fails (g : GlobalsCfg) (s : ScenarioCfg)
    (fid : String)
    (h : s.use_fields.find? (fun x => (gmapFind g.fields x).isNone) =
      Option.some fid) :
    mergeFields g s = Except.error (MergeError.unknownField fid) ∧
    gmapFind g.fields fid = Option.none ∧
    fid ∈ s.use_fields := by
  have hrun := mergeUse_first_missing g s s.use_fields fid h
  refine ⟨?_, ?_, List.mem_of_find?_eq_some h⟩
  · unfold mergeFields
    rw [hrun]
  · have hp := List.find?_some h
    cases hg : gmapFind g.fields fid with
    | none => rfl
    | some b => rw [hg] at hp; simp at hp

theorem merge_unknown_field_fails_witness :
    mergeFields (GlobalsCfg.mk []) (ScenarioCfg.mk ["r"] [] []) =
      Except.error (MergeError.unknownField "r") ∧
    gmapFind (GlobalsCfg.mk []).fields "r" = Option.none ∧
    "r" ∈ (ScenarioCfg.mk ["r"] [] []).use_fields :=
  merge_unknown_field_fails (GlobalsCfg.mk []) (ScenarioCfg.mk ["r"] [] [])
    "r" (by decide)

/-! Relating the two evaluator implementations (claim C10). -/

/-- On a field that carries a source key, the two seeding conditions
agree. -/
theorem seedStep_eq_TR (c : Ctx) (f : FieldDef)
    (h : f.source ≠ Option.none) : seedStepTR c f = seedStep c f := by
  cases hs : f.source with
  | none => exact absurd hs h
  | some s => simp [seedStepTR, seedStep, hs]

theorem seedFields_eq_TR (fields : List FieldDef) :
    ∀ c : Ctx, (∀ f ∈ fields, f.source ≠ Option.none) →
      seedFieldsTR fields c = seedFields fields c := by
  induction fields with
  | nil => intro c _; rfl
  | cons f rest ih =>
    intro c h
    have hf : f.source ≠ Option.none := h f (List.mem_cons_self f rest)
    have stepTR : seedFieldsTR (f :: rest) c = seedFieldsTR rest (seedStepTR c f) := by
      simp [seedFieldsTR]
    have stepSB : seedFields (f :: rest) c = seedFields rest (seedStep c f) := by
      simp [seedFields]
    rw [stepTR, stepSB, seedStep_eq_TR c f hf]
    exact ih (seedStep c f) (fun g hg => h g (List.mem_cons_of_mem f hg))

/-- C10: when every field carries an explicit source key, the two
_compute_values implementations return the same context; they diverge on a
field that omits source: the TemplateRenderer seeding treats it as "user"
(writing its default when the id is absent), the ScenarioBuilder seeding
skips it, and for a one-field list the full evaluations return the seeded
default respectively the untouched inputs. -/
theorem evaluators_equivalence :
    (∀ (fields : List FieldDef) (inputs : Ctx),
      (∀ f ∈ fields, f.source ≠ Option.none) →
      computeValuesTR fields inputs = computeValues fields inputs) ∧
    (∀ (c : Ctx) (f : FieldDef), f.source = Option.none →
      seedStep c f = c ∧
      seedStepTR c f =
        (if ctxMem c f.id then c else ctxInsert c f.id f.default)) ∧
    (∀ (f : FieldDef) (inputs : Ctx), f.source = Option.none →
      ctxMem inputs f.id = false →
      computeValuesTR [f] inputs = ctxInsert inputs f.id f.default ∧
      computeValues [f] inputs = inputs) := by
  refine ⟨?_, ?_, ?_⟩
  · intro fields inputs h
    unfold computeValuesTR computeValuesTRFull computeValues computeValuesFull
    rw [seedFields_eq_TR fields inputs h]
  · intro c f h
    constructor
    · simp [seedStep, h]
    · by_cases hm : ctxMem c f.id = true
      · simp [seedStepTR, h, hm]
      · have hm2 : ctxMem c f.id = false := by
          cases hmm : ctxMem c f.id with
          | true => exact absurd hmm hm
          | false => rfl
        simp [seedStepTR, h, hm2]
  · intro f inputs hs hm
    have hnc : ∀ g ∈ [f], g.source ≠ Option.some "calc" := by
      intro g hg
      rw [List.mem_singleton] at hg
      subst hg
      rw [hs]
      simp
    have h8 : (8 : Nat) = 7 + 1 := rfl
    constructor
    · have hseed : seedFieldsTR [f] inputs = ctxInsert inputs f.id f.default := by
        simp [seedFieldsTR, seedStepTR, hs, hm]
      show (evalLoop [f] 8 ([], seedFieldsTR [f] inputs)).1.2 = _
      rw [hseed]
      have hpass :
          (passStep [f] ([], ctxInsert inputs f.id f.default)).2 = false := by
        unfold passStep
        simp [evalPass_no_calc [f] _ _ hnc]
      rw [h8, evalLoop_not_changed [f] 7 _ hpass]
      show (passStep [f] ([], ctxInsert inputs f.id f.default)).1.2 = _
      unfold passStep
      simp [evalPass_no_calc [f] _ _ hnc]
    · have hseed : seedFields [f] inputs = inputs := by
        simp [seedFields, seedStep, hs]
      show (evalLoop [f] 8 ([], seedFields [f] inputs)).1.2 = _
      rw [hseed]
      have hpass : (passStep [f] ([], inputs)).2 = false := by
        unfold passStep
        simp [evalPass_no_calc [f] _ _ hnc]
      rw [h8, evalLoop_not_changed [f] 7 _ hpass]
      show (passStep [f] ([], inputs)).1.2 = _
      unfold passStep
      simp [evalPass_no_calc [f] _ _ hnc]

/-- Field without a source key, for the C10 witness. -/
def c10NoSource : FieldDef :=
  FieldDef.mk "n" Option.none (Val.num 2) Option.none Val.none

/-- User field with an explicit source key, for the C10 witness. -/
def c10User : FieldDef :=
  FieldDef.mk "u" (Option.some "user") (Val.num 9) Option.none Val.none

theorem evaluators_equivalence_witness :
    computeValuesTR [c10User] [] = computeValues [c10User] [] ∧
    computeValuesTR [c10NoSource] [] = ctxInsert [] "n" (Val.num 2) ∧
    computeValues [c10NoSource] [] = [] :=
  ⟨evaluators_equivalence.1 [c10User] []
      (by intro f hf; rw [List.mem_singleton] at hf; subst hf; decide),
   (evaluators_equivalence.2.2 c10NoSource [] rfl rfl).1,
   (evaluators_equivalence.2.2 c10NoSource [] rfl rfl).2⟩

/-! Object-identity view for the side-effect claim (C8).  Python dicts and
field objects live in heaps indexed by references; the algorithms read
pre-existing objects and write only to objects they allocate. -/

/-- Heap of dict objects. -/
abbrev DictHeap := List Ctx

/-- Dereference a dict object. -/
def dictAt (h : DictHeap) (r : Nat) : Ctx := h[r]?.getD []

/-- Heap-level view of _compute_values: `ctx = dict(inputs)` allocates a
fresh dict initialized from the inputs dict, and every subsequent write of
the function (the seeding writes and the calc writes, threaded through
seedFields and evalLoop inside computeValues) targets that fresh dict; the
interpreter and its symbol table are likewise created inside the call.  The
call returns the reference to the fresh dict; no pre-existing dict is ever
written. -/
def computeValuesH (h : DictHeap) (fields : List FieldDef) (inputsRef : Nat) :
    DictHeap × Nat :=
  (h ++ [computeValues fields (dictAt h inputsRef)], h.length)

/-- Heap of field-definition objects. -/
abbrev FieldHeap := List FieldDef

/-- Dereference a field object. -/
def fieldAt (fh : FieldHeap) (r : Nat) : FieldDef :=
  fh[r]?.getD (FieldDef.mk "" Option.none Val.none Option.none Val.none)

/-- Heap-level view of _merge_fields: the globals catalogue is a list of
references to field objects; `base = dict(gmap[field_id])` allocates a copy
of the referenced catalogue entry and the override/source writes go to that
copy, appended to the heap; catalogue entries are never written.  (In the
source the scenario-local fields are aliased into the result list; the heap
view returns their values, observationally equal because merge performs no
write to them.) -/
def mergeFieldsH (fh : FieldHeap) (gRefs : List Nat) (s : ScenarioCfg) :
    FieldHeap × Except MergeError (List FieldDef) :=
  match mergeFields (GlobalsCfg.mk (gRefs.map (fieldAt fh))) s with
  | Except.error e => (fh, Except.error e)
  | Except.ok merged => (fh ++ merged, Except.ok merged)

/-- C8: merge and evaluate have no side effects on their arguments.
Evaluate returns a reference to a newly allocated dict (one past the
pre-existing heap), every pre-existing dict — the inputs dict and any dict
the field list refers to — is unchanged, and the new dict's value is the
pure function computeValues of the field list and the old inputs value.
Merge leaves every catalogue field object unchanged (overrides are applied
to copies), and its result is the pure function mergeFields of the
catalogue values and the scenario config. -/
theorem merge_evaluate_no_side_effects :
    (∀ (h : DictHeap) (fields : List FieldDef) (r : Nat), r < h.length →
      (computeValuesH h fields r).2 = h.length ∧
      (∀ r2, r2 < h.length →
        dictAt (computeValuesH h fields r).1 r2 = dictAt h r2) ∧
      dictAt (computeValuesH h fields r).1 (computeValuesH h fields r).2 =
        computeValues fields (dictAt h r)) ∧
    (∀ (fh : FieldHeap) (gRefs : List Nat) (s : ScenarioCfg) (r2 : Nat),
      r2 < fh.length →
      fieldAt (mergeFieldsH fh gRefs s).1 r2 = fieldAt fh r2) ∧
    (∀ (fh : FieldHeap) (gRefs : List Nat) (s : ScenarioCfg),
      (mergeFieldsH fh gRefs s).2 =
        mergeFields (GlobalsCfg.mk (gRefs.map (fieldAt fh))) s) := by
  refine ⟨?_, ?_, ?_⟩
  · intro h fields r _
    refine ⟨rfl, ?_, ?_⟩
    · intro r2 hr2
      unfold computeValuesH dictAt
      rw [List.getElem?_append_left hr2]
    · unfold computeValuesH dictAt
      rw [List.getElem?_concat_length]
      rfl
  · intro fh gRefs s r2 hr2
    unfold mergeFieldsH
    cases hm : mergeFields (GlobalsCfg.mk (gRefs.map (fieldAt fh))) s with
    | error e => rfl
    | ok merged =>
      unfold fieldAt
      rw [List.getElem?_append_left hr2]
  · intro fh gRefs s
    unfold mergeFieldsH
    cases hm : mergeFields (GlobalsCfg.mk (gRefs.map (fieldAt fh))) s with
    | error e => rfl
    | ok merged => rfl

/-- Concrete heaps for the C8 witness. -/
def c8dh : DictHeap := [[("a", Val.num 1)]]

/-- Concrete catalogue field object for the C8 witness. -/
def c8field : FieldDef :=
  FieldDef.mk "rate" Option.none (Val.num 5) Option.none (Val.str "%")

theorem merge_evaluate_no_side_effects_witness :
    (computeValuesH c8dh [] 0).2 = c8dh.length ∧
    dictAt (computeValuesH c8dh [] 0).1 0 = dictAt c8dh 0 ∧
    dictAt (computeValuesH c8dh [] 0).1 (computeValuesH c8dh [] 0).2 =
      computeValues [] (dictAt c8dh 0) ∧
    fieldAt (mergeFieldsH [c8field] [0] (ScenarioCfg.mk ["rate"] [] [])).1 0 =
      fieldAt [c8field] 0 :=
  ⟨(merge_evaluate_no_side_effects.1 c8dh [] 0 (by decide)).1,
   (merge_evaluate_no_side_effects.1 c8dh [] 0 (by decide)).2.1 0 (by decide),
   (merge_evaluate_no_side_effects.1 c8dh [] 0 (by decide)).2.2,
   merge_evaluate_no_side_effects.2.1 [c8field] [0]
     (ScenarioCfg.mk ["rate"] [] []) 0 (by decide)⟩
